import Mathlib

/-!
Shallow embedding of the slam-book generation scripts
(download_and_convert_images.py, generate_html_slam_book.py,
generate_beehive_index.py) and proofs about their behaviour.

Strings are modelled as `List Char`.  Python's regular-expression
operations used by the scripts (character-class filtering, run
collapsing, leftmost search, greedy capture) are embedded as
structural list functions so that every definition evaluates by
kernel reduction.
-/

namespace SlamBook

/-- Characters treated as whitespace by Python's `str.strip()` and the
regex class `\s` (ASCII range, which covers the script's inputs). -/
def isSpaceChar (c : Char) : Bool :=
  c = ' ' || c = '\t' || c = '\n' || c = '\r' || c = '\x0b' || c = '\x0c'

/-- The regex class `\w` over ASCII: letters, digits, underscore. -/
def isWordChar (c : Char) : Bool := c.isAlphanum || c = '_'

/-- The character class `[a-zA-Z0-9_-]` used by the Drive-id regexes. -/
def isIdChar (c : Char) : Bool := c.isAlphanum || c = '_' || c = '-'

/-- Python `str.strip`-style stripping: drop characters satisfying `p`
from both ends of the list. -/
def stripBoth (p : Char → Bool) (l : List Char) : List Char :=
  ((l.dropWhile p).reverse.dropWhile p).reverse

/-- Python `text.strip()` (whitespace strip). -/
def pstrip (l : List Char) : List Char := stripBoth isSpaceChar l

/-- Worker for `collapseRuns`; the boolean records whether the previous
character belonged to a run being collapsed. -/
def collapseAux (p : Char → Bool) (rep : Char) : Bool → List Char → List Char
  | _, [] => []
  | inRun, c :: rest =>
    if p c then
      if inRun then collapseAux p rep true rest
      else rep :: collapseAux p rep true rest
    else c :: collapseAux p rep false rest

/-- Python `re.sub(r'X+', rep, s)` for a character class `X`: every
maximal run of characters satisfying `p` becomes the single
character `rep`. -/
def collapseRuns (p : Char → Bool) (rep : Char) (l : List Char) : List Char :=
  collapseAux p rep false l

/-- `clean_text` from generate_html_slam_book.py (lines 15-24):
`None` for empty/whitespace-only text, otherwise strip whitespace,
strip surrounding double quotes, collapse whitespace runs to single
spaces. -/
def clean_text (text : List Char) : Option (List Char) :=
  if pstrip text = [] then none
  else
    let t := stripBoth (fun c => c = '"') (pstrip text)
    some (collapseRuns isSpaceChar ' ' t)

/-- The sanitizer of `create_html_slam_page` (generate_html_slam_book.py
lines 178-179): `re.sub(r'[^\w\s-]', '', name).strip()` followed by
`re.sub(r'[-\s]+', '_', ...)`.  Note: no fallback when the result is
empty. -/
def safe_name_html (name : List Char) : List Char :=
  let s1 := name.filter (fun c => isWordChar c || isSpaceChar c || c = '-')
  let s2 := pstrip s1
  collapseRuns (fun c => c = '-' || isSpaceChar c) '_' s2

/-- The sanitizer inside `create_photo_filename`
(download_and_convert_images.py lines 127-129):
`re.sub(r'[^\w\s-]', '', full_name)`, then `re.sub(r'\s+', '_', ...)`
(hyphens are kept), then `.strip('_')`. -/
def photoSafeNameRaw (full_name : List Char) : List Char :=
  let s1 := full_name.filter (fun c => isWordChar c || isSpaceChar c || c = '-')
  let s2 := collapseRuns isSpaceChar '_' s1
  stripBoth (fun c => c = '_') s2

/-- The sanitized name actually used by `create_photo_filename`,
including the `"Anonymous"` fallback (lines 131-132). -/
def photoSafeName (full_name : List Char) : List Char :=
  let s := photoSafeNameRaw full_name
  if s = [] then ("Anonymous").toList else s

/-- Decimal digits of `n`, most significant first, computed with
structural fuel so that it reduces in the kernel.  Empty for `n = 0`. -/
def decimalAux : Nat → Nat → List Char
  | 0, _ => []
  | fuel + 1, n => if n = 0 then [] else decimalAux fuel (n / 10) ++ [Nat.digitChar (n % 10)]

/-- Python `str(n)` for a natural number. -/
def decimal (n : Nat) : List Char := if n = 0 then ['0'] else decimalAux n n

/-- Python `f"{n:02d}"`: decimal digits, left-padded with `'0'` to
width 2. -/
def format02 (n : Nat) : List Char := if n < 10 then '0' :: decimal n else decimal n

/-- Python `int(s)` on a string of decimal digits. -/
def digitsToNat (l : List Char) : Nat := l.foldl (fun a c => a * 10 + (c.toNat - 48)) 0

/-- `create_photo_filename` (download_and_convert_images.py lines
124-134): returns `photo_{index:02d}_{safe_name}` (without extension). -/
def create_photo_filename (full_name : List Char) (index : Nat) : List Char :=
  ("photo_").toList ++ format02 index ++ '_' :: photoSafeName full_name

/-- The page filename built by `create_html_slam_page`
(generate_html_slam_book.py line 180): `slam_page_{page_num:02d}_{safe_name}.html`
(basename, without the output directory). -/
def html_page_basename (page_num : Nat) (name : List Char) : List Char :=
  ("slam_page_").toList ++ format02 page_num ++ '_' :: (safe_name_html name ++ (".html").toList)

/-- Does `l` contain `pat` as a contiguous sublist (Python `pat in l`)? -/
def containsSubstr (pat : List Char) : List Char → Bool
  | [] => pat.isPrefixOf []
  | c :: rest => pat.isPrefixOf (c :: rest) || containsSubstr pat rest

/-- The root part of Python `os.path.splitext(p)`: the path with its
extension removed.  The extension starts at the last dot of the
basename, ignoring any leading dots of the basename. -/
def splitextRoot (p : List Char) : List Char :=
  let base := (p.reverse.takeWhile (fun c => c ≠ '/')).reverse
  let dir := p.take (p.length - base.length)
  let leadDots := (base.takeWhile (fun c => c = '.')).length
  match base.reverse.findIdx? (fun c => c = '.') with
  | some j =>
    let i := base.length - 1 - j
    if leadDots ≤ i then dir ++ base.take i else dir ++ base
  | none => dir ++ base

/-- The alternatives of the anchored prefix regex in
`extract_name_from_photo_filename`, in alternation order, lowered for
the case-insensitive comparison. -/
def keywordAlternatives : List (List Char) :=
  [("image").toList, ("img").toList, ("screenshot").toList, ("sumukh_anand").toList]

/-- Try to match one alternative of `^(image|IMG|Screenshot|Sumukh_Anand)\s*[-_]\s*`
at the start of `name` (case-insensitively); on success return the
remainder after the separator. -/
def afterKeyword (name kw : List Char) : Option (List Char) :=
  if (name.take kw.length).map Char.toLower = kw then
    let rest := (name.drop kw.length).dropWhile isSpaceChar
    match rest with
    | c :: r2 => if c = '-' || c = '_' then some (r2.dropWhile isSpaceChar) else none
    | [] => none
  else none

/-- Apply `re.sub(r'^(image|IMG|Screenshot|Sumukh_Anand)\s*[-_]\s*', '', name, flags=IGNORECASE)`. -/
def dropKeywordAtStart (name : List Char) : List Char :=
  match keywordAlternatives.findSome? (fun kw => afterKeyword name kw) with
  | some rest => rest
  | none => name

/-- `extract_name_from_photo_filename` (generate_html_slam_book.py
lines 44-58). -/
def extract_name_from_photo_filename (filename : List Char) : List Char :=
  if pstrip filename = [] then ("Anonymous").toList
  else if containsSubstr (("drive.google.com").toList) filename then ("Anonymous").toList
  else
    let name0 := splitextRoot filename
    let name1 := dropKeywordAtStart name0
    let name2 := name1.map (fun c => if c = '_' then ' ' else if c = '-' then ' ' else c)
    pstrip name2

/-- `extract_name_from_data` (generate_html_slam_book.py lines 26-42),
with the two CSV fields it reads passed explicitly. -/
def extract_name_from_data (fullNameField photoField : List Char) : List Char :=
  let full_name := pstrip fullNameField
  if full_name ≠ [] then full_name
  else if photoField ≠ [] then
    let name := extract_name_from_photo_filename photoField
    if name ≠ [] ∧ name ≠ ("Anonymous").toList then name else ("Anonymous").toList
  else ("Anonymous").toList

/-- The literal `/file/d/` of the first Drive-URL pattern. -/
def fileDLit : List Char := ("/file/d/").toList

/-- The literal `id=` of the second Drive-URL pattern. -/
def idEqLit : List Char := ("id=").toList

/-- `re.search(r'/file/d/([a-zA-Z0-9_-]+)', u)`: scan positions left to
right; at the first position where the literal is followed by at least
one id character, return the maximal id-character run (the greedy
capture). -/
def searchFileD : List Char → Option (List Char)
  | [] => none
  | c :: rest =>
    (if fileDLit.isPrefixOf (c :: rest) then
      match (c :: rest).drop fileDLit.length with
      | d :: ds => if isIdChar d then some (d :: ds.takeWhile isIdChar) else searchFileD rest
      | [] => searchFileD rest
    else searchFileD rest)

/-- `re.search(r'[?&]id=([a-zA-Z0-9_-]+)', u)`, with the same leftmost /
greedy semantics. -/
def searchQueryId : List Char → Option (List Char)
  | [] => none
  | q :: rest =>
    (if q = '?' || q = '&' then
      (if idEqLit.isPrefixOf rest then
        match rest.drop idEqLit.length with
        | d :: ds => if isIdChar d then some (d :: ds.takeWhile isIdChar) else searchQueryId rest
        | [] => searchQueryId rest
      else searchQueryId rest)
    else searchQueryId rest)

/-- `extract_google_drive_id` (download_and_convert_images.py lines
17-41).  The `folders` branch and the final unmatched branch both
return `None` (they differ only in the warning printed). -/
def extract_google_drive_id (drive_url : List Char) : Option (List Char) :=
  if pstrip drive_url = [] then none
  else
    let u := pstrip drive_url
    match searchFileD u with
    | some g => some g
    | none =>
      match searchQueryId u with
      | some g => some g
      | none => none

/-- The literal `.html`. -/
def htmlExtL : List Char := (".html").toList

/-- Greedy backtracking of `(.+)\.html` after the underscore: find the
largest index `i ≥ 1` at which `.html` occurs in `tail`, trying from
the end (fuel counts the candidate index). -/
def findLastHtmlAux (tail : List Char) : Nat → Option Nat
  | 0 => none
  | i + 1 => if htmlExtL.isPrefixOf (tail.drop (i + 1)) then some (i + 1) else findLastHtmlAux tail i

/-- `re.match(r'slam_page_(\d+)_(.+)\.html', filename)` from
`scan_slam_book_entries` (generate_beehive_index.py line 43), returning
the two capture groups. -/
def parse_slam_filename (f : List Char) : Option (List Char × List Char) :=
  if (("slam_page_").toList).isPrefixOf f then
    let rest := f.drop (("slam_page_").toList).length
    let d := rest.takeWhile Char.isDigit
    if d = [] then none
    else
      match rest.drop d.length with
      | '_' :: tail =>
        match findLastHtmlAux tail tail.length with
        | some i => some (d, tail.take i)
        | none => none
      | _ => none
  else none

/-- Remove every occurrence of `pat` from the list, scanning left to
right (Python `s.replace(pat, '')`); fuelled for structural
recursion. -/
def removeAllFuel (pat : List Char) : Nat → List Char → List Char
  | 0, l => l
  | _ + 1, [] => []
  | fuel + 1, c :: rest =>
    if pat.isPrefixOf (c :: rest) then removeAllFuel pat fuel ((c :: rest).drop pat.length)
    else c :: removeAllFuel pat fuel rest

/-- Python `s.replace(pat, '')`. -/
def removeAll (pat l : List Char) : List Char := removeAllFuel pat l.length l

/-- `re.sub(r'^\d+_', '', l)`: drop a leading digit run followed by an
underscore, if present. -/
def stripLeadingNumUnderscore (l : List Char) : List Char :=
  let d := l.takeWhile Char.isDigit
  if d = [] then l
  else
    match l.drop d.length with
    | '_' :: rest => rest
    | _ => l

/-- `extract_name_from_filename` (generate_beehive_index.py lines
13-21). -/
def extract_name_from_filename (filename : List Char) : List Char :=
  let n1 := removeAll (("slam_page_").toList) filename
  let n2 := removeAll ((".html").toList) n1
  let n3 := stripLeadingNumUnderscore n2
  n3.map (fun c => if c = '_' then ' ' else c)

/-- One index entry built by `scan_slam_book_entries`. -/
structure HiveEntry where
  number : Nat
  name : List Char
  photo : List Char
  slam_page : List Char
  has_photo : Bool
deriving DecidableEq

/-- The fixed fallback image (generate_beehive_index.py line 37). -/
def fallback_image : List Char := ("output/mainPage.png").toList

/-- The photo filenames probed for a page (generate_beehive_index.py
lines 49-53): only the three legacy raster extensions. -/
def photo_patterns (number name_part : List Char) : List (List Char) :=
  [ ("photo_").toList ++ number ++ '_' :: (name_part ++ (".jpg").toList),
    ("photo_").toList ++ number ++ '_' :: (name_part ++ (".jpeg").toList),
    ("photo_").toList ++ number ++ '_' :: (name_part ++ (".png").toList) ]

/-- One iteration of the scan loop of `scan_slam_book_entries`
(generate_beehive_index.py lines 39-76).  `files` is the set of
filenames present in the output directory (the `os.path.exists`
probes); an unparsable page filename produces no entry. -/
def scan_entry (files : List (List Char)) (filename : List Char) : Option HiveEntry :=
  match parse_slam_filename filename with
  | some g =>
    let photo_file :=
      match (photo_patterns g.1 g.2).find? (fun p => files.contains p) with
      | some p => p
      | none => fallback_image
    some { number := digitsToNat g.1, name := extract_name_from_filename filename,
           photo := photo_file, slam_page := filename,
           has_photo := photo_file != fallback_image }
  | none => none

/-- `scan_slam_book_entries` over a list of page filenames. -/
def scan_slam_book_entries (pages files : List (List Char)) : List HiveEntry :=
  pages.filterMap (scan_entry files)

/-- The image modes of the PIL library (the decoder used by
`convert_image_to_webp`). -/
def pilModes : List String :=
  ["1", "L", "P", "RGB", "RGBA", "CMYK", "YCbCr", "LAB", "HSV", "I", "F",
   "LA", "PA", "RGBX", "RGBa", "La"]

/-- Whether a PIL mode carries an alpha band. -/
def modeHasAlpha (m : String) : Bool :=
  m = "RGBA" || m = "LA" || m = "PA" || m = "RGBa" || m = "La"

/-- Number of bands (channels) of a PIL mode. -/
def modeBands (m : String) : Nat :=
  if m = "RGB" || m = "YCbCr" || m = "LAB" || m = "HSV" then 3
  else if m = "RGBA" || m = "CMYK" || m = "RGBX" || m = "RGBa" then 4
  else if m = "LA" || m = "PA" || m = "La" then 2
  else 1

/-- The mode coercion performed by `convert_image_to_webp`
(download_and_convert_images.py lines 100-104): modes `RGBA` and `LA`
are kept; any mode outside `RGB`/`RGBA` is converted to `RGB`. -/
def convert_image_to_webp_mode (m : String) : String :=
  if m = "RGBA" || m = "LA" then m
  else if !(m = "RGB" || m = "RGBA") then "RGB"
  else m

/-! ### Filesystem model for the image-acquisition stage -/

/-- File contents, abstracted as byte lists. -/
abbrev Bytes := List Nat

/-- The filesystem namespace: an association list from paths to
contents. -/
abbrev FS := List (List Char × Bytes)

/-- Contents of path `p`, if present. -/
def lookupFS (fs : FS) (p : List Char) : Option Bytes :=
  match fs.find? (fun e => e.1 == p) with
  | some e => some e.2
  | none => none

/-- Writing a file (Python `open(p, 'wb')` + `write`): replace any
previous binding of `p`. -/
def fsWrite (fs : FS) (p : List Char) (b : Bytes) : FS :=
  (p, b) :: fs.filter (fun e => e.1 != p)

/-- `os.remove(p)`. -/
def fsRemove (fs : FS) (p : List Char) : FS := fs.filter (fun e => e.1 != p)

/-- `f"Person_{row_num}"`. -/
def personPlaceholder (row_num : Nat) : List Char := ("Person_").toList ++ decimal row_num

/-- The effective display name used by `process_slam_csv` (lines
182-186): the stripped CSV name, or the `Person_{row_num}` placeholder
when it is empty. -/
def download_effective_name (row_num : Nat) (rawName : List Char) : List Char :=
  let full_name := pstrip rawName
  if full_name = [] then personPlaceholder row_num else full_name

/-- The temporary download path for a base filename (line 203). -/
def temp_path (base : List Char) : List Char :=
  ("output/temp_downloads/").toList ++ base ++ (".jpg").toList

/-- The final WebP path for a base filename (line 204). -/
def webp_path (base : List Char) : List Char :=
  ("output/").toList ++ base ++ (".webp").toList

/-- The transcoded target path of a CSV row. -/
def target_webp_path (row_num : Nat) (rawName : List Char) : List Char :=
  webp_path (create_photo_filename (download_effective_name row_num rawName) row_num)

/-- One loop iteration of `process_slam_csv`
(download_and_convert_images.py lines 181-237), as a transition on the
filesystem.  `net` is the download oracle (Drive id to response body;
`none` models an HTTP failure — the single confirmation-page retry is
folded into one oracle call) and `conv` the transcoding oracle.  The
second component counts download attempts made for the row. -/
def process_row (net : List Char → Option Bytes) (conv : Bytes → Option Bytes)
    (fs : FS) (row_num : Nat) (rawName rawUrl : List Char) : FS × Nat :=
  let drive_url := pstrip rawUrl
  if drive_url = [] then (fs, 0)
  else
    match extract_google_drive_id drive_url with
    | none => (fs, 0)
    | some fid =>
      let base := create_photo_filename (download_effective_name row_num rawName) row_num
      if (lookupFS fs (webp_path base)).isSome then (fs, 0)
      else
        match net fid with
        | none => (fs, 1)
        | some content =>
          let fs1 := fsWrite fs (temp_path base) content
          match conv content with
          | some webpBytes => (fsRemove (fsWrite fs1 (webp_path base) webpBytes) (temp_path base), 1)
          | none => (fsRemove fs1 (temp_path base), 1)

/-- The row loop of `process_slam_csv`, starting at ordinal `idx`;
returns the final filesystem and the per-row download-attempt counts. -/
def run_rows (net : List Char → Option Bytes) (conv : Bytes → Option Bytes) :
    Nat → List (List Char × List Char) → FS → FS × List Nat
  | _, [], fs => (fs, [])
  | idx, r :: rest, fs =>
    let step := process_row net conv fs idx r.1 r.2
    let next := run_rows net conv (idx + 1) rest step.1
    (next.1, step.2 :: next.2)

/-- Suffix test (used to model the `glob` patterns). -/
def endsWithL (suffix l : List Char) : Bool := suffix.reverse.isPrefixOf l.reverse

/-- A path matched by `clean_up_jpg_files`'s glob patterns
(`output/photo_*.jpg`, `.jpeg`, `.png`). -/
def is_old_photo_file (p : List Char) : Bool :=
  (("output/photo_").toList).isPrefixOf p &&
  (endsWithL ((".jpg").toList) p || endsWithL ((".jpeg").toList) p ||
   endsWithL ((".png").toList) p)

/-- `clean_up_jpg_files` (lines 136-157): remove the legacy raster
photos from the output directory. -/
def clean_up_jpg_files (fs : FS) : FS := fs.filter (fun e => !(is_old_photo_file e.1))

/-- `process_slam_csv` over a list of rows (name field, photo-URL
field): run the row loop from ordinal 1, then clean up legacy
rasters. -/
def process_slam_csv (net : List Char → Option Bytes) (conv : Bytes → Option Bytes)
    (rows : List (List Char × List Char)) (fs : FS) : FS × List Nat :=
  let r := run_rows net conv 1 rows fs
  (clean_up_jpg_files r.1, r.2)

/-! ### The page-composition loop -/

/-- A parsed CSV row in column order: Timestamp, Full Name, the
question columns, and the photo-URL column last. -/
structure CsvRow where
  timestamp : List Char
  fullName : List Char
  answers : List (List Char)
  photo : List Char

/-- `row.values()` in CSV column order. -/
def rowValues (r : CsvRow) : List (List Char) :=
  r.timestamp :: r.fullName :: (r.answers ++ [r.photo])

/-- `not any(row.values())`: every field is the empty string. -/
def rowBlank (r : CsvRow) : Bool := (rowValues r).all (fun v => v.isEmpty)

/-- The row loop of `generate_html_slam_book.main` (lines 295-305),
starting at ordinal `idx`: blank rows are skipped, every other row
produces a page whose filename uses the row's ordinal. -/
def compose_pages_aux : Nat → List CsvRow → List (Nat × List Char)
  | _, [] => []
  | idx, r :: rest =>
    if rowBlank r then compose_pages_aux (idx + 1) rest
    else (idx, html_page_basename idx (extract_name_from_data r.fullName r.photo)) ::
      compose_pages_aux (idx + 1) rest

/-- The pages generated for a CSV, as (ordinal, basename) pairs. -/
def compose_pages (rows : List CsvRow) : List (Nat × List Char) :=
  compose_pages_aux 1 rows

/-! ### Question-slot processing of `create_html_slam_page` -/

/-- What becomes of one question container of the template. -/
inductive SlotResult where
  | removed
  | filled (text : List Char)
  | untouched
deriving DecidableEq

/-- The featured slot next to the photo (lines 219-229): processed only
when there is at least one question column; an empty cleaned answer
removes the container. -/
def featured_slot_result (answers : List (List Char)) : SlotResult :=
  if 0 < answers.length then
    match clean_text (answers.getD 0 []) with
    | some t => .filled t
    | none => .removed
  else .untouched

/-- Grid container `i` (0-based) of the questions grid (lines 231-247):
it corresponds to question number `i + 2`, i.e. answer column `i + 1`;
containers beyond the question columns are left untouched. -/
def grid_slot_result (answers : List (List Char)) (i : Nat) : SlotResult :=
  let question_number := i + 2
  if question_number ≤ answers.length then
    match clean_text (answers.getD (question_number - 1) []) with
    | some t => .filled t
    | none => .removed
  else .untouched

/-- The fate of the container for question index `i` (0-based over the
question columns): index 0 is the featured slot, index `j + 1` is grid
container `j`. -/
def question_slot_result (answers : List (List Char)) (i : Nat) : SlotResult :=
  match i with
  | 0 => featured_slot_result answers
  | j + 1 => grid_slot_result answers j

/-- Modelled from the spec's words, for comparison with `clean_text`:
"render exactly that text, whitespace-collapsed" — the answer with
leading/trailing whitespace removed and each whitespace run collapsed
to a single space, and no other transformation. -/
def spec_rendered_text (answer : List Char) : List Char :=
  collapseRuns isSpaceChar ' ' (pstrip answer)

/-- The all-empty CSV row, used as a `getD` default. -/
def blankRow : CsvRow := ⟨[], [], [], []⟩

/-! ## Helper lemmas -/

theorem digitChar_sub_48 : ∀ k, k < 10 → (Nat.digitChar k).toNat - 48 = k := by decide

theorem digitChar_isDigit : ∀ k, k < 10 → (Nat.digitChar k).isDigit = true := by decide

theorem mem_decimalAux_isDigit :
    ∀ fuel n c, c ∈ decimalAux fuel n → c.isDigit = true := by
  intro fuel
  induction fuel with
  | zero => intro n c h; simp [decimalAux] at h
  | succ fuel ih =>
    intro n c h
    by_cases hn : n = 0
    · simp [decimalAux, hn] at h
    · simp only [decimalAux, if_neg hn, List.mem_append, List.mem_singleton] at h
      rcases h with h | h
      · exact ih _ _ h
      · subst h; exact digitChar_isDigit _ (Nat.mod_lt _ (by norm_num))

theorem mem_decimal_isDigit (n : Nat) (c : Char) (h : c ∈ decimal n) : c.isDigit = true := by
  unfold decimal at h
  by_cases hn : n = 0
  · simp [hn] at h; subst h; decide
  · rw [if_neg hn] at h; exact mem_decimalAux_isDigit _ _ _ h

theorem mem_format02_isDigit (n : Nat) (c : Char) (h : c ∈ format02 n) : c.isDigit = true := by
  unfold format02 at h
  by_cases hn : n < 10
  · rw [if_pos hn] at h
    rcases List.mem_cons.mp h with h | h
    · subst h; decide
    · exact mem_decimal_isDigit _ _ h
  · rw [if_neg hn] at h; exact mem_decimal_isDigit _ _ h

theorem digitsToNat_decimalAux :
    ∀ fuel n, n ≤ fuel → digitsToNat (decimalAux fuel n) = n := by
  intro fuel
  induction fuel with
  | zero => intro n h; interval_cases n; rfl
  | succ fuel ih =>
    intro n h
    by_cases hn : n = 0
    · simp [decimalAux, hn, digitsToNat]
    · have hdiv : n / 10 ≤ fuel := by
        have := Nat.div_lt_self (Nat.pos_of_ne_zero hn) (by norm_num : 1 < 10)
        omega
      simp only [decimalAux, if_neg hn]
      unfold digitsToNat
      rw [List.foldl_append]
      have hfold := ih (n / 10) hdiv
      unfold digitsToNat at hfold
      simp only [hfold, List.foldl_cons, List.foldl_nil]
      rw [digitChar_sub_48 _ (Nat.mod_lt _ (by norm_num))]
      omega

theorem digitsToNat_decimal (n : Nat) : digitsToNat (decimal n) = n := by
  unfold decimal
  by_cases hn : n = 0
  · simp [hn]; decide
  · rw [if_neg hn]; exact digitsToNat_decimalAux n n le_rfl

theorem digitsToNat_format02 (n : Nat) : digitsToNat (format02 n) = n := by
  unfold format02
  by_cases hn : n < 10
  · rw [if_pos hn]
    have : digitsToNat ('0' :: decimal n) = digitsToNat (decimal n) := by
      unfold digitsToNat
      simp [List.foldl_cons]
    rw [this, digitsToNat_decimal]
  · rw [if_neg hn]; exact digitsToNat_decimal n

theorem decimal_ne_nil (n : Nat) : decimal n ≠ [] := by
  unfold decimal
  by_cases hn : n = 0
  · simp [hn]
  · rw [if_neg hn]
    cases n with
    | zero => exact absurd rfl hn
    | succ m =>
      simp only [decimalAux, if_neg hn]
      exact List.append_ne_nil_of_right_ne_nil _ (by simp)

theorem format02_ne_nil (n : Nat) : format02 n ≠ [] := by
  unfold format02
  by_cases hn : n < 10
  · simp [hn]
  · rw [if_neg hn]; exact decimal_ne_nil n

theorem mem_collapseAux (p : Char → Bool) (rep : Char) :
    ∀ (b : Bool) (l : List Char) (c : Char), c ∈ collapseAux p rep b l →
      c = rep ∨ (c ∈ l ∧ p c = false) := by
  intro b l
  induction l generalizing b with
  | nil => intro c h; simp [collapseAux] at h
  | cons x xs ih =>
    intro c h
    by_cases hx : p x
    · simp only [collapseAux, if_pos hx] at h
      cases b with
      | true =>
        rcases ih true c h with h' | h'
        · exact Or.inl h'
        · exact Or.inr ⟨List.mem_cons_of_mem _ h'.1, h'.2⟩
      | false =>
        rcases List.mem_cons.mp h with h' | h'
        · exact Or.inl h'
        · rcases ih true c h' with h'' | h''
          · exact Or.inl h''
          · exact Or.inr ⟨List.mem_cons_of_mem _ h''.1, h''.2⟩
    · simp only [collapseAux, if_neg hx] at h
      rcases List.mem_cons.mp h with h' | h'
      · subst h'; exact Or.inr ⟨List.mem_cons_self _ _, by simpa using hx⟩
      · rcases ih false c h' with h'' | h''
        · exact Or.inl h''
        · exact Or.inr ⟨List.mem_cons_of_mem _ h''.1, h''.2⟩

theorem collapseAux_eq_self (p : Char → Bool) (rep : Char) :
    ∀ (b : Bool) (l : List Char), (∀ c ∈ l, p c = false) → collapseAux p rep b l = l := by
  intro b l
  induction l generalizing b with
  | nil => intro _; rfl
  | cons x xs ih =>
    intro h
    have hx : p x = false := h x (List.mem_cons_self _ _)
    simp only [collapseAux, hx, Bool.false_eq_true, if_false]
    rw [ih false (fun c hc => h c (List.mem_cons_of_mem _ hc))]

theorem mem_stripBoth (p : Char → Bool) (l : List Char) (c : Char)
    (h : c ∈ stripBoth p l) : c ∈ l := by
  unfold stripBoth at h
  rw [List.mem_reverse] at h
  have h1 := (List.dropWhile_sublist (l := (l.dropWhile p).reverse) p).subset h
  rw [List.mem_reverse] at h1
  exact (List.dropWhile_sublist p).subset h1

theorem mem_safe_name_html_isWord (name : List Char) (c : Char)
    (h : c ∈ safe_name_html name) : isWordChar c = true := by
  unfold safe_name_html collapseRuns at h
  rcases mem_collapseAux _ _ _ _ _ h with h' | ⟨hmem, hno⟩
  · subst h'; decide
  · have hmem2 := mem_stripBoth _ _ _ hmem
    have hkeep := List.of_mem_filter hmem2
    simp only [Bool.or_eq_true, decide_eq_true_eq] at hkeep hno
    rcases hkeep with (hw | hs) | hd
    · exact hw
    · simp [hs] at hno
    · simp [hd] at hno

theorem safe_name_html_no_dot (name : List Char) : '.' ∉ safe_name_html name := by
  intro h
  have := mem_safe_name_html_isWord name '.' h
  simp [isWordChar] at this

theorem takeWhile_append_all {p : Char → Bool} :
    ∀ (l₁ : List Char) (c₀ : Char) (l₂ : List Char), (∀ c ∈ l₁, p c = true) → p c₀ = false →
      (l₁ ++ c₀ :: l₂).takeWhile p = l₁ := by
  intro l₁ c₀ l₂ h h0
  induction l₁ with
  | nil => simp [List.takeWhile, h0]
  | cons x xs ih =>
    have hx : p x = true := h x (List.mem_cons_self _ _)
    simp only [List.cons_append, List.takeWhile_cons, hx, if_true]
    rw [ih (fun c hc => h c (List.mem_cons_of_mem _ hc))]

theorem findLastHtmlAux_at_boundary (safe : List Char) (h1 : safe ≠ []) :
    ∀ k, k ≤ 5 → findLastHtmlAux (safe ++ htmlExtL) (safe.length + k) = some safe.length := by
  intro k
  induction k with
  | zero =>
    intro _
    rcases List.exists_cons_of_ne_nil h1 with ⟨x, xs, rfl⟩
    show findLastHtmlAux _ (xs.length + 1 + 0) = _
    simp only [Nat.add_zero, findLastHtmlAux]
    have hdrop : ((x :: xs) ++ htmlExtL).drop (xs.length + 1) = htmlExtL := by
      have : xs.length + 1 = (x :: xs).length := by simp
      rw [this, List.drop_left]
    rw [hdrop]
    have : htmlExtL.isPrefixOf htmlExtL = true := by decide
    simp [this]
  | succ k ih =>
    intro hk
    show findLastHtmlAux _ (safe.length + k + 1) = _
    have hdrop : (safe ++ htmlExtL).drop (safe.length + k + 1) = htmlExtL.drop (k + 1) := by
      have : safe.length + k + 1 = safe.length + (k + 1) := by omega
      rw [this, List.drop_append]
    have hnp : htmlExtL.isPrefixOf ((safe ++ htmlExtL).drop (safe.length + k + 1)) = false := by
      rw [hdrop]
      by_contra hcon
      rw [Bool.not_eq_false, List.isPrefixOf_iff_prefix] at hcon
      have hlen := hcon.length_le
      have : (htmlExtL.drop (k + 1)).length ≤ 4 := by
        simp only [List.length_drop]
        have : htmlExtL.length = 5 := by decide
        omega
      have h5 : htmlExtL.length = 5 := by decide
      omega
    simp only [findLastHtmlAux, hnp, Bool.false_eq_true, if_false]
    exact ih (by omega)

theorem parse_html_page_basename (n : Nat) (name : List Char)
    (h : safe_name_html name ≠ []) :
    parse_slam_filename (html_page_basename n name) =
      some (format02 n, safe_name_html name) := by
  unfold parse_slam_filename html_page_basename
  rw [List.append_assoc]
  set pre := ("slam_page_").toList with hpre
  set f02 := format02 n with hf02
  set safe := safe_name_html name with hsafe
  have hprefix : pre.isPrefixOf (pre ++ (f02 ++ '_' :: (safe ++ (".html").toList))) = true := by
    rw [List.isPrefixOf_iff_prefix]
    exact List.prefix_append _ _
  rw [if_pos hprefix]
  have hdrop1 : (pre ++ (f02 ++ '_' :: (safe ++ (".html").toList))).drop pre.length
      = f02 ++ '_' :: (safe ++ (".html").toList) := List.drop_left _ _
  rw [hdrop1]
  have htake : (f02 ++ '_' :: (safe ++ (".html").toList)).takeWhile Char.isDigit = f02 :=
    takeWhile_append_all f02 '_' _ (fun c hc => mem_format02_isDigit n c hc) (by decide)
  have hdrop2 : (f02 ++ '_' :: (safe ++ (".html").toList)).drop f02.length
      = '_' :: (safe ++ (".html").toList) := List.drop_left _ _
  have hlen : (safe ++ (".html").toList).length = safe.length + 5 := by
    rw [List.length_append]; rfl
  have hfind : findLastHtmlAux (safe ++ (".html").toList) (safe ++ (".html").toList).length
      = some safe.length := by
    rw [hlen]; exact findLastHtmlAux_at_boundary safe h 5 le_rfl
  simp only [htake, if_neg (format02_ne_nil n), hdrop2, hfind]
  rw [List.take_left]

theorem space_not_word (c : Char) (h : isSpaceChar c = true) : isWordChar c = false := by
  simp only [isSpaceChar, Bool.or_eq_true, decide_eq_true_eq] at h
  rcases h with ((((rfl | rfl) | rfl) | rfl) | rfl) | rfl <;> decide

theorem word_not_space (c : Char) (h : isWordChar c = true) : isSpaceChar c = false := by
  by_contra hcon
  rw [Bool.not_eq_false] at hcon
  rw [space_not_word c hcon] at h
  exact Bool.false_ne_true h

theorem stripBoth_no_strip (p : Char → Bool) (l : List Char)
    (h1 : ∀ c, l.head? = some c → p c = false)
    (h2 : ∀ c, l.getLast? = some c → p c = false) : stripBoth p l = l := by
  have hfront : l.dropWhile p = l := by
    cases l with
    | nil => rfl
    | cons x xs =>
      have := h1 x rfl
      simp [List.dropWhile, this]
  unfold stripBoth
  rw [hfront]
  have hback : l.reverse.dropWhile p = l.reverse := by
    cases hrev : l.reverse with
    | nil => rfl
    | cons y ys =>
      have hy : l.getLast? = some y := by
        rw [← List.head?_reverse, hrev]; rfl
      have := h2 y hy
      simp [List.dropWhile, this]
  rw [hback, List.reverse_reverse]

theorem digit_not_underscore (c : Char) (h : c.isDigit = true) :
    (decide (c = '_') : Bool) = false := by
  by_contra hcon
  rw [Bool.not_eq_false, decide_eq_true_eq] at hcon
  subst hcon
  simp at h

theorem mem_personPlaceholder_isWord (n : Nat) (c : Char)
    (h : c ∈ personPlaceholder n) : isWordChar c = true := by
  unfold personPlaceholder at h
  rcases List.mem_append.mp h with h' | h'
  · have hlist : ("Person_").toList = ['P', 'e', 'r', 's', 'o', 'n', '_'] := rfl
    rw [hlist] at h'
    simp only [List.mem_cons, List.not_mem_nil, or_false] at h'
    rcases h' with rfl | rfl | rfl | rfl | rfl | rfl | rfl <;> decide
  · have hd := mem_decimal_isDigit n c h'
    simp [isWordChar, Char.isAlphanum, hd]

theorem photoSafeName_personPlaceholder (n : Nat) :
    photoSafeName (personPlaceholder n) = personPlaceholder n := by
  have hraw : photoSafeNameRaw (personPlaceholder n) = personPlaceholder n := by
    unfold photoSafeNameRaw
    have hfil : (personPlaceholder n).filter
        (fun c => isWordChar c || isSpaceChar c || c = '-') = personPlaceholder n := by
      rw [List.filter_eq_self]
      intro c hc
      simp [mem_personPlaceholder_isWord n c hc]
    have hcol : collapseRuns isSpaceChar '_' (personPlaceholder n) = personPlaceholder n := by
      unfold collapseRuns
      exact collapseAux_eq_self _ _ _ _
        (fun c hc => word_not_space c (mem_personPlaceholder_isWord n c hc))
    simp only [hfil, hcol]
    apply stripBoth_no_strip
    · intro c hc
      have hP : (personPlaceholder n).head? = some 'P' := by
        unfold personPlaceholder
        rfl
      rw [hP] at hc
      cases hc
      decide
    · intro c hc
      rcases List.eq_nil_or_concat (decimal n) with hnil | ⟨l', a, hconcat⟩
      · exact absurd hnil (decimal_ne_nil n)
      · have : personPlaceholder n = (("Person_").toList ++ l') ++ [a] := by
          unfold personPlaceholder
          rw [hconcat]
          simp [List.concat_eq_append, List.append_assoc]
        rw [this, List.getLast?_concat] at hc
        cases hc
        have ha : c ∈ decimal n := by rw [hconcat]; simp
        exact digit_not_underscore c (mem_decimal_isDigit n c ha)
  unfold photoSafeName
  rw [hraw]
  have hne : personPlaceholder n ≠ [] := by
    unfold personPlaceholder
    simp
  rw [if_neg hne]

theorem photoSafeName_ne_nil (full_name : List Char) : photoSafeName full_name ≠ [] := by
  unfold photoSafeName
  by_cases h : photoSafeNameRaw full_name = []
  · rw [if_pos h]; decide
  · rw [if_neg h]; exact h

/-! ### Characterization of the page-composition loop -/

theorem mem_compose_pages_aux :
    ∀ (rows : List CsvRow) (idx : Nat) (e : Nat × List Char),
      e ∈ compose_pages_aux idx rows ↔
        ∃ j, j < rows.length ∧ rowBlank (rows.getD j blankRow) = false ∧
          e = (idx + j, html_page_basename (idx + j)
            (extract_name_from_data (rows.getD j blankRow).fullName
              (rows.getD j blankRow).photo)) := by
  intro rows
  induction rows with
  | nil =>
    intro idx e
    simp [compose_pages_aux]
  | cons r rest ih =>
    intro idx e
    by_cases hb : rowBlank r
    · simp only [compose_pages_aux, hb, if_true]
      rw [ih (idx + 1) e]
      constructor
      · rintro ⟨j, hj, hnb, he⟩
        refine ⟨j + 1, by simpa using Nat.succ_lt_succ hj, by simpa using hnb, ?_⟩
        have harith : idx + 1 + j = idx + (j + 1) := by omega
        simpa [harith] using he
      · rintro ⟨j, hj, hnb, he⟩
        cases j with
        | zero =>
          exfalso
          simp only [List.getD_cons_zero] at hnb
          rw [hb] at hnb
          exact absurd hnb (by decide)
        | succ j' =>
          refine ⟨j', by simpa using Nat.lt_of_succ_lt_succ hj, by simpa using hnb, ?_⟩
          have harith : idx + (j' + 1) = idx + 1 + j' := by omega
          simpa [harith] using he
    · simp only [compose_pages_aux, hb, Bool.false_eq_true, if_false, List.mem_cons]
      rw [ih (idx + 1) e]
      constructor
      · rintro (he | ⟨j, hj, hnb, he⟩)
        · exact ⟨0, by simp, by simpa using hb, by simpa using he⟩
        · refine ⟨j + 1, by simpa using Nat.succ_lt_succ hj, by simpa using hnb, ?_⟩
          have harith : idx + 1 + j = idx + (j + 1) := by omega
          simpa [harith] using he
      · rintro ⟨j, hj, hnb, he⟩
        cases j with
        | zero => exact Or.inl (by simpa using he)
        | succ j' =>
          refine Or.inr ⟨j', by simpa using Nat.lt_of_succ_lt_succ hj, by simpa using hnb, ?_⟩
          have harith : idx + (j' + 1) = idx + 1 + j' := by omega
          simpa [harith] using he

/-! ### Correctness of the Drive-id searches -/

/-- A URL matching the first supported shape: it contains `/file/d/`
followed by at least one id character. -/
def matchesFileShape (u : List Char) : Prop :=
  ∃ a d rest, u = a ++ fileDLit ++ d :: rest ∧ isIdChar d = true

/-- A URL matching the second supported shape: it contains `?id=` or
`&id=` followed by at least one id character. -/
def matchesQueryShape (u : List Char) : Prop :=
  ∃ a q d rest, u = a ++ q :: (idEqLit ++ d :: rest) ∧ (q = '?' ∨ q = '&') ∧ isIdChar d = true

theorem matchesFileShape_cons_iff (c : Char) (cs : List Char)
    (hnot : ∀ d rest, c :: cs = fileDLit ++ d :: rest → isIdChar d = false) :
    matchesFileShape (c :: cs) ↔ matchesFileShape cs := by
  constructor
  · rintro ⟨a, d, r, heq, hid⟩
    cases a with
    | nil =>
      simp only [List.nil_append] at heq
      rw [hnot d r heq] at hid
      exact absurd hid (by decide)
    | cons a₀ a' =>
      simp only [List.cons_append] at heq
      injection heq with h1 h2
      exact ⟨a', d, r, h2, hid⟩
  · rintro ⟨a, d, r, heq, hid⟩
    exact ⟨c :: a, d, r, by simp [heq], hid⟩

theorem searchFileD_isSome_iff :
    ∀ u : List Char, (searchFileD u).isSome = true ↔ matchesFileShape u := by
  intro u
  induction u with
  | nil =>
    constructor
    · intro h; exact absurd h (by decide)
    · rintro ⟨a, d, r, heq, _⟩
      exact absurd heq (by simp)
  | cons c cs ih =>
    by_cases hpre : fileDLit.isPrefixOf (c :: cs) = true
    · obtain ⟨t, ht⟩ := List.isPrefixOf_iff_prefix.mp hpre
      have hdrop : (c :: cs).drop fileDLit.length = t := by
        rw [← ht]; exact List.drop_left _ _
      cases t with
      | nil =>
        have hs : searchFileD (c :: cs) = searchFileD cs := by
          simp only [searchFileD, hpre, if_true, hdrop]
        rw [hs, ih]
        refine (matchesFileShape_cons_iff c cs ?_).symm
        intro d rest heq
        have hcontr : fileDLit ++ ([] : List Char) = fileDLit ++ d :: rest := ht.trans heq
        have := List.append_cancel_left hcontr
        exact List.noConfusion this
      | cons d ds =>
        by_cases hd : isIdChar d = true
        · have hs : searchFileD (c :: cs) = some (d :: ds.takeWhile isIdChar) := by
            simp only [searchFileD, hpre, if_true, hdrop, hd]
          rw [hs]
          exact iff_of_true rfl ⟨[], d, ds, by simp [← ht], hd⟩
        · simp only [Bool.not_eq_true] at hd
          have hs : searchFileD (c :: cs) = searchFileD cs := by
            simp only [searchFileD, hpre, if_true, hdrop, hd, Bool.false_eq_true, if_false]
          rw [hs, ih]
          refine (matchesFileShape_cons_iff c cs ?_).symm
          intro d' rest' heq
          have hcontr : fileDLit ++ d :: ds = fileDLit ++ d' :: rest' := ht.trans heq
          have := List.append_cancel_left hcontr
          injection this with h1 _
          rw [← h1]; exact hd
    · simp only [Bool.not_eq_true] at hpre
      have hs : searchFileD (c :: cs) = searchFileD cs := by
        simp only [searchFileD, hpre, Bool.false_eq_true, if_false]
      rw [hs, ih]
      refine (matchesFileShape_cons_iff c cs ?_).symm
      intro d rest heq
      exfalso
      have : fileDLit.isPrefixOf (c :: cs) = true :=
        List.isPrefixOf_iff_prefix.mpr ⟨d :: rest, heq.symm⟩
      rw [hpre] at this
      exact absurd this (by decide)

theorem matchesQueryShape_cons_iff (c : Char) (cs : List Char)
    (hnot : ∀ d rest, (c = '?' ∨ c = '&') → cs = idEqLit ++ d :: rest → isIdChar d = false) :
    matchesQueryShape (c :: cs) ↔ matchesQueryShape cs := by
  constructor
  · rintro ⟨a, q, d, r, heq, hq, hid⟩
    cases a with
    | nil =>
      simp only [List.nil_append] at heq
      injection heq with h1 h2
      subst h1
      rw [hnot d r hq h2] at hid
      exact absurd hid (by decide)
    | cons a₀ a' =>
      simp only [List.cons_append] at heq
      injection heq with h1 h2
      exact ⟨a', q, d, r, h2, hq, hid⟩
  · rintro ⟨a, q, d, r, heq, hq, hid⟩
    exact ⟨c :: a, q, d, r, by simp [heq], hq, hid⟩

theorem searchQueryId_isSome_iff :
    ∀ u : List Char, (searchQueryId u).isSome = true ↔ matchesQueryShape u := by
  intro u
  induction u with
  | nil =>
    constructor
    · intro h; exact absurd h (by decide)
    · rintro ⟨a, q, d, r, heq, _, _⟩
      exact absurd heq (by simp)
  | cons c cs ih =>
    by_cases hq : (c = '?' || c = '&') = true
    · by_cases hpre : idEqLit.isPrefixOf cs = true
      · obtain ⟨t, ht⟩ := List.isPrefixOf_iff_prefix.mp hpre
        have hdrop : cs.drop idEqLit.length = t := by
          rw [← ht]; exact List.drop_left _ _
        cases t with
        | nil =>
          have hs : searchQueryId (c :: cs) = searchQueryId cs := by
            simp only [searchQueryId, hq, if_true, hpre, hdrop]
          rw [hs, ih]
          refine (matchesQueryShape_cons_iff c cs ?_).symm
          intro d rest _ heq
          have hcontr : idEqLit ++ ([] : List Char) = idEqLit ++ d :: rest := ht.trans heq
          have := List.append_cancel_left hcontr
          exact List.noConfusion this
        | cons d ds =>
          by_cases hd : isIdChar d = true
          · have hs : searchQueryId (c :: cs) = some (d :: ds.takeWhile isIdChar) := by
              simp only [searchQueryId, hq, if_true, hpre, hdrop, hd]
            rw [hs]
            have hq' : c = '?' ∨ c = '&' := by
              simpa [Bool.or_eq_true, decide_eq_true_eq] using hq
            exact iff_of_true rfl ⟨[], c, d, ds, by simp [← ht], hq', hd⟩
          · simp only [Bool.not_eq_true] at hd
            have hs : searchQueryId (c :: cs) = searchQueryId cs := by
              simp only [searchQueryId, hq, if_true, hpre, hdrop, hd, Bool.false_eq_true,
                if_false]
            rw [hs, ih]
            refine (matchesQueryShape_cons_iff c cs ?_).symm
            intro d' rest' _ heq
            have hcontr : idEqLit ++ d :: ds = idEqLit ++ d' :: rest' := ht.trans heq
            have := List.append_cancel_left hcontr
            injection this with h1 _
            rw [← h1]; exact hd
      · simp only [Bool.not_eq_true] at hpre
        have hs : searchQueryId (c :: cs) = searchQueryId cs := by
          simp only [searchQueryId, hq, if_true, hpre, Bool.false_eq_true, if_false]
        rw [hs, ih]
        refine (matchesQueryShape_cons_iff c cs ?_).symm
        intro d rest _ heq
        exfalso
        have : idEqLit.isPrefixOf cs = true :=
          List.isPrefixOf_iff_prefix.mpr ⟨d :: rest, heq.symm⟩
        rw [hpre] at this
        exact absurd this (by decide)
    · simp only [Bool.not_eq_true] at hq
      have hs : searchQueryId (c :: cs) = searchQueryId cs := by
        simp only [searchQueryId, hq, Bool.false_eq_true, if_false]
      rw [hs, ih]
      refine (matchesQueryShape_cons_iff c cs ?_).symm
      intro d rest hqor _
      exfalso
      have : (c = '?' || c = '&') = true := by
        rcases hqor with h | h <;> simp [h]
      rw [hq] at this
      exact absurd this (by decide)

theorem extract_id_isSome_iff (url : List Char) :
    (∃ g, extract_google_drive_id url = some g) ↔
      matchesFileShape (pstrip url) ∨ matchesQueryShape (pstrip url) := by
  unfold extract_google_drive_id
  by_cases hempty : pstrip url = []
  · rw [if_pos hempty, hempty]
    constructor
    · rintro ⟨g, hg⟩; exact absurd hg (by simp)
    · rintro (h | h)
      · exact absurd ((searchFileD_isSome_iff []).mpr h) (by decide)
      · exact absurd ((searchQueryId_isSome_iff []).mpr h) (by decide)
  · rw [if_neg hempty]
    cases hf : searchFileD (pstrip url) with
    | some g =>
      simp only [hf]
      constructor
      · intro _
        exact Or.inl ((searchFileD_isSome_iff _).mp (by simp [hf]))
      · intro _; exact ⟨g, rfl⟩
    | none =>
      cases hqy : searchQueryId (pstrip url) with
      | some g =>
        simp only [hf, hqy]
        constructor
        · intro _
          exact Or.inr ((searchQueryId_isSome_iff _).mp (by simp [hqy]))
        · intro _; exact ⟨g, rfl⟩
      | none =>
        simp only [hf, hqy]
        constructor
        · rintro ⟨g, hg⟩; exact absurd hg (by simp)
        · rintro (h | h)
          · have := (searchFileD_isSome_iff _).mpr h
            rw [hf] at this
            exact absurd this (by decide)
          · have := (searchQueryId_isSome_iff _).mpr h
            rw [hqy] at this
            exact absurd this (by decide)

/-! ### Idempotence of the image acquirer -/

theorem find_key_filter (q : List Char → Bool) (p : List Char) (hq : q p = true) :
    ∀ fs : FS, (fs.filter (fun e => q e.1)).find? (fun e => e.1 == p) =
      fs.find? (fun e => e.1 == p) := by
  intro fs
  induction fs with
  | nil => rfl
  | cons e rest ih =>
    by_cases hqe : q e.1 = true
    · rw [List.filter_cons_of_pos (by simpa using hqe)]
      by_cases hep : (e.1 == p) = true
      · simp only [List.find?_cons, hep]
      · simp only [Bool.not_eq_true] at hep
        simp only [List.find?_cons, hep]
        exact ih
    · simp only [Bool.not_eq_true] at hqe
      rw [List.filter_cons_of_neg (by simp [hqe])]
      have hep : (e.1 == p) = false := by
        by_contra hcon
        rw [Bool.not_eq_false, beq_iff_eq] at hcon
        rw [hcon, hq] at hqe
        exact absurd hqe (by decide)
      simp only [List.find?_cons, hep]
      exact ih

theorem lookupFS_fsWrite_ne (fs : FS) (q : List Char) (b : Bytes) (p : List Char)
    (h : q ≠ p) : lookupFS (fsWrite fs q b) p = lookupFS fs p := by
  unfold lookupFS fsWrite
  rw [List.find?_cons_of_neg _ (by simp [h])]
  rw [find_key_filter (fun x => x != q) p (by simp [Ne.symm h]) fs]

theorem lookupFS_fsRemove_ne (fs : FS) (q : List Char) (p : List Char)
    (h : q ≠ p) : lookupFS (fsRemove fs q) p = lookupFS fs p := by
  unfold lookupFS fsRemove
  rw [find_key_filter (fun x => x != q) p (by simp [Ne.symm h]) fs]

theorem getLast?_append_jpg (x : List Char) : (x ++ (".jpg").toList).getLast? = some 'g' := by
  have h : (".jpg").toList = ['.', 'j', 'p'] ++ ['g'] := rfl
  rw [h, ← List.append_assoc, List.getLast?_concat]

theorem getLast?_append_webp (x : List Char) : (x ++ (".webp").toList).getLast? = some 'p' := by
  have h : (".webp").toList = ['.', 'w', 'e', 'b'] ++ ['p'] := rfl
  rw [h, ← List.append_assoc, List.getLast?_concat]

theorem temp_path_ne_webp_path (b c : List Char) : temp_path b ≠ webp_path c := by
  intro h
  have h1 : (temp_path b).getLast? = some 'g' := getLast?_append_jpg _
  have h2 : (webp_path c).getLast? = some 'p' := getLast?_append_webp _
  rw [h, h2] at h1
  exact absurd h1 (by decide)

theorem process_row_skip (net : List Char → Option Bytes) (conv : Bytes → Option Bytes)
    (fs : FS) (n : Nat) (nm url : List Char) (b : Bytes)
    (hb : lookupFS fs (target_webp_path n nm) = some b) :
    process_row net conv fs n nm url = (fs, 0) := by
  simp only [process_row]
  by_cases hu : pstrip url = []
  · rw [if_pos hu]
  · rw [if_neg hu]
    cases hex : extract_google_drive_id (pstrip url) with
    | none => rfl
    | some fid =>
      have hsome : (lookupFS fs
          (webp_path (create_photo_filename (download_effective_name n nm) n))).isSome = true := by
        unfold target_webp_path at hb
        rw [hb]; rfl
      dsimp only
      simp only [hsome, if_true]

theorem process_row_preserves (net : List Char → Option Bytes) (conv : Bytes → Option Bytes)
    (fs : FS) (n : Nat) (nm url : List Char) (m : Nat) (c : List Char) (b : Bytes)
    (hp : lookupFS fs (target_webp_path m c) = some b) :
    lookupFS (process_row net conv fs n nm url).1 (target_webp_path m c) = some b := by
  simp only [process_row]
  by_cases hu : pstrip url = []
  · rw [if_pos hu]; exact hp
  · rw [if_neg hu]
    cases hex : extract_google_drive_id (pstrip url) with
    | none => exact hp
    | some fid =>
      dsimp only
      by_cases hexists : (lookupFS fs
          (webp_path (create_photo_filename (download_effective_name n nm) n))).isSome = true
      · rw [if_pos hexists]; exact hp
      · rw [if_neg hexists]
        have hne_tgt : webp_path (create_photo_filename (download_effective_name n nm) n)
            ≠ target_webp_path m c := by
          intro heq
          rw [heq, hp] at hexists
          exact hexists rfl
        have hne_tmp : temp_path (create_photo_filename (download_effective_name n nm) n)
            ≠ target_webp_path m c := by
          unfold target_webp_path
          exact temp_path_ne_webp_path _ _
        split
        · exact hp
        · split
          · dsimp only
            rw [lookupFS_fsRemove_ne _ _ _ hne_tmp,
                lookupFS_fsWrite_ne _ _ _ _ hne_tgt,
                lookupFS_fsWrite_ne _ _ _ _ hne_tmp]
            exact hp
          · dsimp only
            rw [lookupFS_fsRemove_ne _ _ _ hne_tmp,
                lookupFS_fsWrite_ne _ _ _ _ hne_tmp]
            exact hp

theorem run_rows_preserves (net : List Char → Option Bytes) (conv : Bytes → Option Bytes) :
    ∀ (rows : List (List Char × List Char)) (idx : Nat) (fs : FS) (m : Nat)
      (c : List Char) (b : Bytes),
      lookupFS fs (target_webp_path m c) = some b →
      lookupFS (run_rows net conv idx rows fs).1 (target_webp_path m c) = some b := by
  intro rows
  induction rows with
  | nil => intro idx fs m c b h; exact h
  | cons r rest ih =>
    intro idx fs m c b h
    simp only [run_rows]
    exact ih (idx + 1) _ m c b (process_row_preserves net conv fs idx r.1 r.2 m c b h)

theorem run_rows_spec (net : List Char → Option Bytes) (conv : Bytes → Option Bytes) :
    ∀ (rows : List (List Char × List Char)) (idx : Nat) (fs : FS) (i : Nat) (b : Bytes),
      i < rows.length →
      lookupFS fs (target_webp_path (idx + i) (rows.getD i ([], [])).1) = some b →
      lookupFS (run_rows net conv idx rows fs).1
          (target_webp_path (idx + i) (rows.getD i ([], [])).1) = some b ∧
        (run_rows net conv idx rows fs).2.getD i 1 = 0 := by
  intro rows
  induction rows with
  | nil => intro idx fs i b h; exact absurd h (by simp)
  | cons r rest ih =>
    intro idx fs i b hlen hb
    cases i with
    | zero =>
      have hb0 : lookupFS fs (target_webp_path idx r.1) = some b := by simpa using hb
      have hskip := process_row_skip net conv fs idx r.1 r.2 b hb0
      constructor
      · simp only [run_rows, hskip]
        have := run_rows_preserves net conv rest (idx + 1) fs idx r.1 b hb0
        simpa using this
      · simp only [run_rows, hskip]
        rfl
    | succ i' =>
      have hb1 : lookupFS fs
          (target_webp_path (idx + (i' + 1)) (rest.getD i' ([], [])).1) = some b := by
        simpa using hb
      have hb2 := process_row_preserves net conv fs idx r.1 r.2
        (idx + (i' + 1)) (rest.getD i' ([], [])).1 b hb1
      have harith : idx + (i' + 1) = (idx + 1) + i' := by omega
      rw [harith] at hb2
      have hres := ih (idx + 1) (process_row net conv fs idx r.1 r.2).1 i' b
        (by simpa using hlen) hb2
      constructor
      · simp only [run_rows]
        have := hres.1
        rw [harith]
        simpa using this
      · simp only [run_rows]
        simpa using hres.2

theorem not_old_webp (x : List Char) : is_old_photo_file (webp_path x) = false := by
  have hrev : (webp_path x).reverse =
      'p' :: 'b' :: 'e' :: 'w' :: '.' :: (("output/").toList ++ x).reverse := by
    unfold webp_path
    rw [List.reverse_append]
    rfl
  have h1 : (['g', 'p', 'j', '.'] : List Char).isPrefixOf ((webp_path x).reverse) = false := by
    rw [hrev]; rfl
  have h2 : (['g', 'e', 'p', 'j', '.'] : List Char).isPrefixOf ((webp_path x).reverse) = false := by
    rw [hrev]; rfl
  have h3 : (['g', 'n', 'p', '.'] : List Char).isPrefixOf ((webp_path x).reverse) = false := by
    rw [hrev]; rfl
  simp [is_old_photo_file, endsWithL, h1, h2, h3]

theorem lookupFS_cleanup (fs : FS) (p : List Char)
    (hnotold : is_old_photo_file p = false) :
    lookupFS (clean_up_jpg_files fs) p = lookupFS fs p := by
  unfold lookupFS clean_up_jpg_files
  rw [find_key_filter (fun x => !(is_old_photo_file x)) p (by simp [hnotold]) fs]

/-! ## Claims -/

/-- Claim C1 (code-bug evaluation): with the page
`slam_page_01_Jane_Doe.html` present and the transcoded asset
`photo_01_Jane_Doe.webp` the only photo file in the output directory,
`scan_slam_book_entries` still includes the entry (it is never
dropped), but it assigns the fixed fallback image: the probe list of
`photo_patterns` covers only `.jpg`/`.jpeg`/`.png` and never `.webp`,
so the existing web-format asset is ignored. -/
theorem scan_entry_webp_asset_ignored :
    scan_slam_book_entries [("slam_page_01_Jane_Doe.html").toList]
        [("photo_01_Jane_Doe.webp").toList] =
      [{ number := 1, name := ("Jane Doe").toList,
         photo := ("output/mainPage.png").toList,
         slam_page := ("slam_page_01_Jane_Doe.html").toList,
         has_photo := false }] := by decide

/-- Claim C2 (counterexample): for a CSV row with an empty name field
and empty photo field at ordinal 3, the Page Composer's name is
`"Anonymous"`, not `"Person_3"`, and the generated page filename is
built from `"Anonymous"`. -/
theorem empty_name_page_uses_anonymous :
    extract_name_from_data [] [] = ("Anonymous").toList ∧
    html_page_basename 3 (extract_name_from_data [] []) =
      ("slam_page_03_Anonymous.html").toList ∧
    ("Anonymous").toList ≠ ("Person_3").toList := by decide

/-- Claim C2 (amended): for an empty or whitespace-only name field, the
image-acquisition stage uses the `Person_{ordinal}` placeholder and
builds the photo filename from it, but the page-generation stage
derives its name independently and falls back to `"Anonymous"` (when
the photo field is empty), so page filenames are not built from the
placeholder. -/
theorem empty_name_placeholder_acquirer_only (n : Nat) (rawName : List Char)
    (h : pstrip rawName = []) :
    download_effective_name n rawName = personPlaceholder n ∧
    create_photo_filename (download_effective_name n rawName) n =
      ("photo_").toList ++ format02 n ++ '_' :: personPlaceholder n ∧
    extract_name_from_data rawName [] = ("Anonymous").toList := by
  have heff : download_effective_name n rawName = personPlaceholder n := by
    unfold download_effective_name
    rw [h]
    rfl
  refine ⟨heff, ?_, ?_⟩
  · unfold create_photo_filename
    rw [heff, photoSafeName_personPlaceholder]
  · unfold extract_name_from_data
    rw [h]
    rfl

/-- Witness for `empty_name_placeholder_acquirer_only` at ordinal 3 and
a whitespace-only name field. -/
theorem empty_name_placeholder_acquirer_only_witness :
    download_effective_name 3 ((" ").toList) = personPlaceholder 3 ∧
    create_photo_filename (download_effective_name 3 ((" ").toList)) 3 =
      ("photo_").toList ++ format02 3 ++ '_' :: personPlaceholder 3 ∧
    extract_name_from_data ((" ").toList) [] = ("Anonymous").toList :=
  empty_name_placeholder_acquirer_only 3 ((" ").toList) (by decide)

/-- Claim C3 (counterexample): the display name `"!!!"` (reachable
through `extract_name_from_data`) sanitizes to the empty string, the
Page Composer then produces the filename `slam_page_03_.html`, and the
Index Composer's naming grammar fails to parse it, so the parse does
not succeed for every producible filename. -/
theorem roundtrip_fails_on_empty_sanitized_name :
    extract_name_from_data (("!!!").toList) [] = ("!!!").toList ∧
    html_page_basename 3 (("!!!").toList) = ("slam_page_03_.html").toList ∧
    parse_slam_filename (("slam_page_03_.html").toList) = none := by decide

/-- Claim C3 (amended): for every page filename whose sanitized-name
part is nonempty, re-parsing with the Index Composer's grammar
recovers the ordinal (via the numeric conversion of the first group)
and the sanitized name exactly. -/
theorem filename_roundtrip_nonempty_name (n : Nat) (name : List Char)
    (h : safe_name_html name ≠ []) :
    parse_slam_filename (html_page_basename n name) =
      some (format02 n, safe_name_html name) ∧
    digitsToNat (format02 n) = n :=
  ⟨parse_html_page_basename n name h, digitsToNat_format02 n⟩

/-- Witness for `filename_roundtrip_nonempty_name` at ordinal 7 and
name `"Jane Doe"`. -/
theorem filename_roundtrip_nonempty_name_witness :
    parse_slam_filename (html_page_basename 7 (("Jane Doe").toList)) =
      some (format02 7, safe_name_html (("Jane Doe").toList)) ∧
    digitsToNat (format02 7) = 7 :=
  filename_roundtrip_nonempty_name 7 (("Jane Doe").toList) (by decide)

/-- Claim C4 (counterexample): in the page-composition stage the
sanitized name of `"???"` is empty and no placeholder is substituted —
the generated filename has an empty name component. -/
theorem page_sanitizer_empty_no_placeholder :
    safe_name_html (("???").toList) = [] ∧
    html_page_basename 7 (("???").toList) = ("slam_page_07_.html").toList := by decide

/-- Claim C4 (amended): the photo-filename stage substitutes the fixed
placeholder `"Anonymous"` whenever sanitization yields an empty
string, so its name component is always nonempty; the page-filename
stage performs no such substitution and yields an empty sanitized
name, e.g. for the input `"..."`. -/
theorem sanitized_name_fallback_photo_stage_only (full_name : List Char) (idx : Nat) :
    photoSafeName full_name ≠ [] ∧
    create_photo_filename full_name idx =
      ("photo_").toList ++ format02 idx ++ '_' :: photoSafeName full_name ∧
    safe_name_html (("...").toList) = [] :=
  ⟨photoSafeName_ne_nil full_name, rfl, by decide⟩

/-- Claim C5: for every person record and every question slot that
corresponds to an answer column, an empty or whitespace-only answer
removes that slot's entire container from the generated page. -/
theorem empty_answer_slot_removed (answers : List (List Char)) (i : Nat)
    (hi : i < answers.length) (hempty : pstrip (answers.getD i []) = []) :
    question_slot_result answers i = SlotResult.removed := by
  have hct : clean_text (answers.getD i []) = none := by
    unfold clean_text
    rw [if_pos hempty]
  cases i with
  | zero =>
    unfold question_slot_result featured_slot_result
    rw [if_pos hi, hct]
  | succ j =>
    have hle : j + 2 ≤ answers.length := by omega
    have hidx : j + 2 - 1 = j + 1 := rfl
    simp only [question_slot_result, grid_slot_result, if_pos hle, hidx, hct]

/-- Witness for `empty_answer_slot_removed`: the second question of a
record whose second answer is whitespace-only is removed. -/
theorem empty_answer_slot_removed_witness :
    question_slot_result [("a").toList, ("  ").toList] 1 = SlotResult.removed :=
  empty_answer_slot_removed [("a").toList, ("  ").toList] 1 (by decide) (by decide)

/-- Claim C6 (counterexample): the answer `"Wrench"` written with
surrounding double quotes is rendered as `Wrench` — the quotes are
stripped — while the spec's whitespace-collapse-only rendering keeps
them, so the rendered text is not merely the whitespace-collapsed
answer. -/
theorem quote_stripping_changes_text :
    question_slot_result [("\"Wrench\"").toList] 0 =
      SlotResult.filled (("Wrench").toList) ∧
    spec_rendered_text (("\"Wrench\"").toList) = ("\"Wrench\"").toList ∧
    ("Wrench").toList ≠ ("\"Wrench\"").toList := by decide

/-- Claim C6 (amended): a non-empty answer is rendered as the answer
with leading/trailing whitespace stripped, then leading/trailing
double-quote characters stripped, then whitespace runs collapsed to
single spaces. -/
theorem nonempty_answer_rendered_text (answers : List (List Char)) (i : Nat)
    (hi : i < answers.length) (hne : pstrip (answers.getD i []) ≠ []) :
    question_slot_result answers i =
      SlotResult.filled (collapseRuns isSpaceChar ' '
        (stripBoth (fun c => c = '"') (pstrip (answers.getD i [])))) := by
  have hct : clean_text (answers.getD i []) = some (collapseRuns isSpaceChar ' '
      (stripBoth (fun c => c = '"') (pstrip (answers.getD i [])))) := by
    unfold clean_text
    rw [if_neg hne]
  cases i with
  | zero =>
    unfold question_slot_result featured_slot_result
    rw [if_pos hi, hct]
  | succ j =>
    have hle : j + 2 ≤ answers.length := by omega
    have hidx : j + 2 - 1 = j + 1 := rfl
    simp only [question_slot_result, grid_slot_result, if_pos hle, hidx, hct]

/-- Witness for `nonempty_answer_rendered_text` on a featured answer
with internal whitespace runs. -/
theorem nonempty_answer_rendered_text_witness :
    question_slot_result [("  a   b ").toList] 0 =
      SlotResult.filled (collapseRuns isSpaceChar ' '
        (stripBoth (fun c => c = '"') (pstrip (("  a   b ").toList)))) :=
  nonempty_answer_rendered_text [("  a   b ").toList] 0 (by decide) (by decide)

/-- Claim C7 (counterexample): a Drive folder link that also carries an
`id=` query parameter is not rejected — the second URL pattern is
tried before the folder test, so an identifier is extracted from a
`folders` link. -/
theorem folder_link_with_id_extracted :
    containsSubstr (("folders").toList)
        (("https://drive.google.com/drive/folders/abc?id=xyz").toList) = true ∧
    extract_google_drive_id
        (("https://drive.google.com/drive/folders/abc?id=xyz").toList) =
      some (("xyz").toList) := by decide

/-- Claim C7 (amended): the extractor returns an identifier exactly
when the trimmed URL matches one of the two supported shapes (the
`/file/d/{id}` path shape or the `[?&]id=` query shape); these are
checked before the folder test, so every URL matching neither shape —
including plain folder links — is rejected, while a folder link that
matches a supported shape still yields an identifier. -/
theorem extract_id_exactly_on_supported_shapes (url : List Char) :
    (∃ g, extract_google_drive_id url = some g) ↔
      matchesFileShape (pstrip url) ∨ matchesQueryShape (pstrip url) :=
  extract_id_isSome_iff url

/-- Claim C8 (counterexample): the PIL mode `PA` (palette with alpha)
carries an alpha band, yet the transcoder coerces it to `RGB`,
dropping its alpha, so alpha is not preserved for every mode with
alpha. -/
theorem pa_mode_alpha_dropped :
    modeHasAlpha "PA" = true ∧
    convert_image_to_webp_mode "PA" = "RGB" ∧
    modeHasAlpha "RGB" = false := by decide

/-- Claim C8 (amended): the transcoder keeps exactly the modes `RGBA`
and `LA` unchanged (preserving their alpha); every other PIL mode —
including the remaining alpha-bearing modes `PA`, `RGBa`, `La` — is
coerced to the 3-channel, alpha-free `RGB` model. -/
theorem mode_conversion_amended (m : String) (h : m ∈ pilModes) :
    ((m = "RGBA" ∨ m = "LA") → convert_image_to_webp_mode m = m) ∧
    (¬(m = "RGBA" ∨ m = "LA") → convert_image_to_webp_mode m = "RGB" ∧
      modeBands (convert_image_to_webp_mode m) = 3 ∧
      modeHasAlpha (convert_image_to_webp_mode m) = false) := by
  fin_cases h <;> exact ⟨fun hm => by simp_all [convert_image_to_webp_mode],
    fun hm => by simp_all [convert_image_to_webp_mode, modeBands, modeHasAlpha]⟩

/-- Witness for `mode_conversion_amended` at the alpha-free mode
`CMYK`. -/
theorem mode_conversion_amended_witness :
    convert_image_to_webp_mode "CMYK" = "RGB" ∧
    modeBands (convert_image_to_webp_mode "CMYK") = 3 ∧
    modeHasAlpha (convert_image_to_webp_mode "CMYK") = false :=
  (mode_conversion_amended "CMYK" (by decide)).2 (by decide)

/-- Claim C9: for every record whose transcoded target file already
exists before the run, the acquirer makes no download attempt for that
row and the full run (including the legacy-raster cleanup) leaves the
target file's bytes unchanged. -/
theorem acquirer_skip_existing_target (net : List Char → Option Bytes)
    (conv : Bytes → Option Bytes) (rows : List (List Char × List Char)) (fs : FS)
    (i : Nat) (b : Bytes) (hi : i < rows.length)
    (hb : lookupFS fs (target_webp_path (1 + i) (rows.getD i ([], [])).1) = some b) :
    lookupFS (process_slam_csv net conv rows fs).1
        (target_webp_path (1 + i) (rows.getD i ([], [])).1) = some b ∧
    (process_slam_csv net conv rows fs).2.getD i 1 = 0 := by
  have hrun := run_rows_spec net conv rows 1 fs i b hi hb
  constructor
  · simp only [process_slam_csv]
    rw [lookupFS_cleanup _ _ (show is_old_photo_file
      (target_webp_path (1 + i) (rows.getD i ([], [])).1) = false from not_old_webp _)]
    exact hrun.1
  · simp only [process_slam_csv]
    exact hrun.2

/-- Witness for `acquirer_skip_existing_target`: one row whose WebP
target is already on disk; reprocessing leaves it untouched with no
download attempt. -/
theorem acquirer_skip_existing_target_witness :
    lookupFS (process_slam_csv (fun _ => some [9]) (fun bs => some bs)
        [(("Jane").toList, ("https://drive.google.com/open?id=Q").toList)]
        [(("output/photo_01_Jane.webp").toList, [1, 2, 3])]).1
      (target_webp_path (1 + 0)
        ([(("Jane").toList, ("https://drive.google.com/open?id=Q").toList)].getD 0
          ([], [])).1) = some [1, 2, 3] ∧
    (process_slam_csv (fun _ => some [9]) (fun bs => some bs)
        [(("Jane").toList, ("https://drive.google.com/open?id=Q").toList)]
        [(("output/photo_01_Jane.webp").toList, [1, 2, 3])]).2.getD 0 1 = 0 :=
  acquirer_skip_existing_target (fun _ => some [9]) (fun bs => some bs)
    [(("Jane").toList, ("https://drive.google.com/open?id=Q").toList)]
    [(("output/photo_01_Jane.webp").toList, [1, 2, 3])] 0 [1, 2, 3]
    (by decide) (by decide)

/-- Claim C10: a fully-blank CSV row consumes an ordinal slot: a
non-blank row at 0-based position `i` always yields the page with
ordinal `i + 1` (its absolute 1-based CSV position, regardless of how
many blank rows precede it), and a blank row yields no page with its
ordinal. -/
theorem blank_row_consumes_ordinal (rows : List CsvRow) (i : Nat)
    (hi : i < rows.length) :
    (rowBlank (rows.getD i blankRow) = false →
      (1 + i, html_page_basename (1 + i)
        (extract_name_from_data (rows.getD i blankRow).fullName
          (rows.getD i blankRow).photo)) ∈ compose_pages rows) ∧
    (rowBlank (rows.getD i blankRow) = true →
      ∀ s, (1 + i, s) ∉ compose_pages rows) := by
  constructor
  · intro hnb
    rw [compose_pages, mem_compose_pages_aux]
    exact ⟨i, hi, hnb, rfl⟩
  · intro hb s hmem
    rw [compose_pages, mem_compose_pages_aux] at hmem
    obtain ⟨j, _, hnb, he⟩ := hmem
    have hfst : 1 + i = 1 + j := by
      have := congrArg Prod.fst he
      simpa using this
    have hji : j = i := by omega
    rw [hji, hb] at hnb
    exact absurd hnb (by decide)

/-- Concrete rows for the C10 witness: a blank first row followed by a
non-blank row. -/
def rowsW : List CsvRow :=
  [ { timestamp := [], fullName := [], answers := [[]], photo := [] },
    { timestamp := ("t").toList, fullName := ("Jane").toList,
      answers := [("x").toList], photo := [] } ]

/-- Witness for `blank_row_consumes_ordinal`: the non-blank second row
keeps ordinal 2 although the first row is blank. -/
theorem blank_row_consumes_ordinal_witness :
    (1 + 1, html_page_basename (1 + 1)
      (extract_name_from_data (rowsW.getD 1 blankRow).fullName
        (rowsW.getD 1 blankRow).photo)) ∈ compose_pages rowsW :=
  (blank_row_consumes_ordinal rowsW 1 (by decide)).1 (by decide)

end SlamBook
